import Mathlib

/-!
# Verification of the p2p-music sync server core

Shallow embedding of `src/apps/p2p-music/server/server/src/index.ts`:
the track catalog (`Record<string, Track>` persisted as `tracks.json`),
the directory walker `walk`, the change-detection condition of
`scanAndIndex` (line 88), the per-file ingestion worker body
(lines 84-122), the run-level control flow of `scanAndIndex`
(`Promise.all` over queued workers, then `saveState`), the durable
load/save pair `loadState`/`saveState`, and the mime resolution of the
`/api/stream/:cid` route (lines 169-171).

External effects (file sizes from `fs.statSync`, `music-metadata`'s
`parseFile`, `ipfs.add`, `mime-types`' `lookup`) are supplied by an
environment of oracles; a JavaScript rejection/throw is an
`Except Unit` error, and a JavaScript value that may be `undefined`
is an `Option`.
-/

namespace P2PMusic

/-- The `Track` record type of `index.ts` (lines 16-25): all fields but
`relativePath` are optional (`?:` in TypeScript becomes `Option`).
`duration` is `music-metadata`'s floating-point seconds, modelled as a
rational; no claim computes with it. -/
structure Track where
  relativePath : String
  cid : Option String := none
  size : Option Nat := none
  title : Option String := none
  artist : Option String := none
  album : Option String := none
  duration : Option Rat := none
  mime : Option String := none
  deriving DecidableEq, Repr

/-- The in-memory catalog `Record<string, Track>`. A JavaScript object
with string (non-integer-like) keys enumerates in insertion order and
has unique keys; we model it as an association list where update
replaces in place and insertion appends, so `Object.values` order is
the list order. -/
abbrev Catalog := List (String × Track)

/-- `state[rel]` — property read on a JS object: the entry at the key,
`undefined` (`none`) when absent. First match in list order. -/
def getEntry (c : Catalog) (k : String) : Option Track :=
  (c.find? (fun p => p.1 == k)).map (fun p => p.2)

/-- `state[rel] = track` — property write on a JS object: replaces the
existing entry in place when the key is present, otherwise appends at
the end of the enumeration order. -/
def setEntry (c : Catalog) (k : String) (t : Track) : Catalog :=
  if c.any (fun p => p.1 == k) then
    c.map (fun p => if p.1 == k then (k, t) else p)
  else
    c ++ [(k, t)]

/-- JavaScript truthiness of `prev.cid : string | undefined`:
truthy iff defined and not the empty string. -/
def strTruthy : Option String → Bool
  | none => false
  | some s => s != ""

/-- JavaScript `a || d` for `a : string | false/undefined` (used for
`mimeLookup(absPath) || "application/octet-stream"` at line 109 and
`match?.mime || "audio/mpeg"` at line 171): the left operand unless it
is absent or the empty string. -/
def jsOrDefault (o : Option String) (d : String) : String :=
  match o with
  | none => d
  | some s => if s == "" then d else s

/-- The change-detection condition of `scanAndIndex` (line 88):
`if (prev && prev.size === stat.size && prev.cid) return;` skips the
file; `needsIngest` is the negation (the file is re-ingested).
`prev.size === stat.size` is strict equality against a possibly
`undefined` recorded size. -/
def needsIngest (prev : Option Track) (currentSize : Nat) : Bool :=
  match prev with
  | none => true
  | some p => !(p.size == some currentSize && strTruthy p.cid)

/-- Best-effort metadata recovered by `parseFile` (lines 95-101): the
four fields the worker copies out of `music-metadata`'s result, each
possibly `undefined`. -/
structure Meta where
  title : Option String := none
  artist : Option String := none
  album : Option String := none
  duration : Option Rat := none
  deriving DecidableEq, Repr

/-- A candidate file of a run: its path relative to `MUSIC_DIR`
(`path.relative(MUSIC_DIR, absPath)`, line 85) and the size reported by
`fs.statSync` (line 86). -/
structure FileInfo where
  relPath : String
  size : Nat
  deriving DecidableEq, Repr

/-- The external world of one `scanAndIndex` run: the candidate file
list produced by `walk(MUSIC_DIR).filter(isAudioFile)`, and oracles for
the three external calls of the worker body. `meta p = none` models
`parseFile` throwing (caught at line 102); `push p = none` models the
read-stream/`ipfs.add` chain rejecting (lines 105-106, uncaught);
`push p = some cid` models a successful pin returning
`res.cid.toString()`; `mimeOf` is `mime-types`' `lookup`, `none` for
its `false` result. -/
structure SyncEnv where
  files : List FileInfo
  meta : String → Option Meta
  push : String → Option String
  mimeOf : String → Option String

/-- Mutable run state shared by the workers of `scanAndIndex`: the
in-memory catalog object `state`, the counter `added`, and (as
instrumentation of the call site at line 106) the list of `ipfs.add`
calls issued so far, in order. -/
structure RunAcc where
  state : Catalog
  added : Nat
  pushes : List String
  deriving DecidableEq, Repr

/-- The entry written at lines 111-120 after a successful push: the
relative path, the new cid, the statted size, the best-effort metadata
(`meta = {}` when `parseFile` threw, so all four fields `undefined`),
and `mimeLookup(absPath) || "application/octet-stream"`. -/
def newEntry (env : SyncEnv) (f : FileInfo) (cid : String) : Track :=
  let m : Meta := (env.meta f.relPath).getD {}
  { relativePath := f.relPath
    cid := some cid
    size := some f.size
    title := m.title
    artist := m.artist
    album := m.album
    duration := m.duration
    mime := some (jsOrDefault (env.mimeOf f.relPath) "application/octet-stream") }

/-- The worker body queued for one candidate file (lines 84-122):
look up the previous entry, return early when line 88 skips, otherwise
parse metadata best-effort (failure caught, all fields left
`undefined`), push to the store (`.error ()` when the push rejects —
nothing caught here), and on success write the new entry under the
file's relative path and increment `added`. -/
def ingestOne (env : SyncEnv) (acc : RunAcc) (f : FileInfo) : Except Unit RunAcc :=
  if needsIngest (getEntry acc.state f.relPath) f.size then
    match env.push f.relPath with
    | none => .error ()
    | some cid =>
      .ok { state := setEntry acc.state f.relPath (newEntry env f cid)
            added := acc.added + 1
            pushes := acc.pushes ++ [f.relPath] }
  else
    .ok acc

/-- The join point of `scanAndIndex` (lines 82-124):
`await Promise.all(absFiles.map(absPath => queue.add(...)))`, run file
by file. If any worker rejects, the `await` rejects and everything
after it is skipped, which is exactly `Except.error`; otherwise the
accumulated run state survives the join. (The pool interleaves at most
two workers, but each key is touched by at most the one worker of its
own file, so the key-to-entry outcome of a successful run is
schedule-independent; the sequential order here is dispatch order.) -/
def runFiles (env : SyncEnv) (acc : RunAcc) : List FileInfo → Except Unit RunAcc
  | [] => .ok acc
  | f :: rest =>
    match ingestOne env acc f with
    | .error e => .error e
    | .ok acc' => runFiles env acc' rest

/-- The outcome of one full `scanAndIndex` call started on the loaded
snapshot `state0` (line 76): the final in-memory catalog passed to
`saveState` (line 126) and the returned `{ total, added }`
(line 127), plus the instrumented push log. -/
structure SyncResult where
  state : Catalog
  total : Nat
  added : Nat
  pushes : List String
  deriving DecidableEq, Repr

/-- `scanAndIndex` (lines 74-128) from the loaded snapshot onward:
runs every candidate through the worker body; a single worker rejection
makes the whole call reject (the `await Promise.all` at line 82), in
which case lines 126-127 (`saveState` and the result) are never
reached. -/
def scanAndIndex (env : SyncEnv) (state0 : Catalog) : Except Unit SyncResult :=
  match runFiles env { state := state0, added := 0, pushes := [] } env.files with
  | .error e => .error e
  | .ok acc => .ok { state := acc.state, total := env.files.length, added := acc.added,
                     pushes := acc.pushes }

/-- The durable effect of the `POST /api/index` route (lines 147-155)
around one run: on success `saveState(state)` persists the final
catalog and the route answers with `{ total, added }`; on rejection the
catch at line 152 answers 500, `saveState` was never reached, and the
durable catalog stays `disk`. Returns (durable catalog after the run,
the reported counts or `none` on failure). -/
def runIndexRoute (env : SyncEnv) (disk : Catalog) : Catalog × Option (Nat × Nat) :=
  match scanAndIndex env disk with
  | .ok r => (r.state, some (r.total, r.added))
  | .error _ => (disk, none)

/-- Mime resolution of `GET /api/stream/:cid` (lines 169-171):
`Object.values(state).find(t => t.cid === cid)` then
`match?.mime || "audio/mpeg"`. `t.cid === cid` with `t.cid` undefined
is false, so only entries with `cid = some cid` match. -/
def streamMime (state : Catalog) (cid : String) : String :=
  jsOrDefault ((state.find? (fun p => p.2.cid == some cid)).map (fun p => p.2) |>.bind
    (fun t => t.mime)) "audio/mpeg"

/-! ## The directory walker (`walk`, lines 41-52)

A directory tree as `walk` observes it through
`fs.readdirSync(dir, { withFileTypes: true })`: each entry is either a
non-directory dirent (pushed as a path, line 48), or a directory dirent
that is recursed into (line 46). A directory whose `readdirSync`
throws (permissions, dangling mount, ...) is `unreadable`: the throw is
uncaught inside `walk`, so it propagates. -/

inductive FSTree where
  | file : FSTree
  | unreadable : FSTree
  | dir : List (String × FSTree) → FSTree
  deriving Repr

/-- `entry.isDirectory()` on a dirent (line 45): true for a directory,
also for one whose own `readdirSync` will fail — the failure only
surfaces on recursing into it. -/
def isDirEntry : FSTree → Bool
  | FSTree.file => false
  | _ => true

mutual

/-- `walk(dir)` (lines 41-52): `readdirSync` the directory — throwing
(`.error`) when it is unreadable (the throw is uncaught inside `walk`,
there is no try/catch anywhere in it) — then loop over the entries. -/
def walk (p : String) : FSTree → Except Unit (List String)
  | FSTree.dir es => walkEntries p es
  | _ => .error ()

/-- The loop body of `walk` (lines 43-50) over the entry list of one
readable directory at path `p`: a directory entry is recursed into
(line 46) with its results spliced in place, any other entry is pushed
as a path (line 48). An error from the recursion propagates. -/
def walkEntries (p : String) : List (String × FSTree) → Except Unit (List String)
  | [] => .ok []
  | (n, t) :: rest =>
    if isDirEntry t then do
      let sub ← walk (p ++ "/" ++ n) t
      let tail ← walkEntries p rest
      pure (sub ++ tail)
    else do
      let tail ← walkEntries p rest
      pure ((p ++ "/" ++ n) :: tail)

end

mutual

/-- Whether a tree contains, at any depth, a directory whose
`readdirSync` fails. -/
def hasUnreadable : FSTree → Bool
  | FSTree.file => false
  | FSTree.unreadable => true
  | FSTree.dir es => hasUnreadableEntries es

/-- Entry-list version of `hasUnreadable`. -/
def hasUnreadableEntries : List (String × FSTree) → Bool
  | [] => false
  | (_, t) :: rest => hasUnreadable t || hasUnreadableEntries rest

end

/-! ## Durable persistence (`loadState`/`saveState`, lines 54-65)

Crash model of the state file across one `saveState`. `saveState`
writes `JSON.stringify(state, null, 2)` straight into `STATE_FILE` with
`fs.writeFileSync` (line 64), which opens with `O_TRUNC` and then
writes: a crash mid-save leaves a proper prefix of the JSON text
(possibly empty). A proper prefix of a `JSON.stringify` object text is
never itself valid JSON (the final closing brace is missing), so
`JSON.parse` throws on it; `truncated` stands for any such prefix. -/

inductive Stored where
  | absent : Stored
  | valid : Catalog → Stored
  | truncated : Stored
  deriving DecidableEq, Repr

/-- `loadState` (lines 54-60): parse the stored file; any failure
(missing file, truncated/corrupt JSON) is caught and yields the empty
catalog `{}`. -/
def loadState : Stored → Catalog
  | Stored.valid c => c
  | _ => []

/-- The durable states observable after `saveState(c)` was started on
top of durable state `prior` and the process crashed at an arbitrary
point (or finished): crash before the write began (`prior`), crash
after `O_TRUNC`/mid-write (`truncated`), or the complete new text
(`valid c`). -/
def saveOutcomes (prior : Stored) (c : Catalog) : List Stored :=
  [prior, Stored.truncated, Stored.valid c]

/-! ## Concrete fixtures

Small concrete runs used to exhibit counterexamples and to instantiate
the hypotheses of the theorems below. -/

/-- Three candidate files of which exactly the second suffers a store
push failure (`ipfs.add` rejects for `b.mp3`). -/
def envC1 : SyncEnv :=
  { files := [⟨"a.mp3", 1⟩, ⟨"b.mp3", 2⟩, ⟨"c.mp3", 3⟩]
    meta := fun _ => none
    push := fun p => if p == "b.mp3" then none else some ("cid-" ++ p)
    mimeOf := fun _ => some "audio/mpeg" }

/-- A prior catalog holding a stale entry for the file whose push will
fail (recorded size 99 differs from the current size 2, so the file is
a candidate for re-ingestion). -/
def diskC1 : Catalog :=
  [("b.mp3", { relativePath := "b.mp3", cid := some "oldcid", size := some 99,
               mime := some "audio/mpeg" })]

/-- A fully ingested track, used as prior durable state for the
persistence claims. -/
def trackA : Track :=
  { relativePath := "a.mp3", cid := some "cidA", size := some 1,
    mime := some "audio/mpeg" }

/-- A second fully ingested track. -/
def trackB : Track :=
  { relativePath := "b.mp3", cid := some "cidB", size := some 2,
    mime := some "audio/mpeg" }

/-- Two candidate files whose pushes all succeed with a fixed non-empty
content identifier. -/
def envC3 : SyncEnv :=
  { files := [⟨"a.mp3", 1⟩, ⟨"b.mp3", 2⟩]
    meta := fun _ => none
    push := fun _ => some "cidQ"
    mimeOf := fun _ => none }

/-- The result of the first (fully successful) run of `envC3` from an
empty catalog. -/
def rC3 : SyncResult :=
  { state := [("a.mp3", { relativePath := "a.mp3", cid := some "cidQ", size := some 1,
                          mime := some "application/octet-stream" }),
              ("b.mp3", { relativePath := "b.mp3", cid := some "cidQ", size := some 2,
                          mime := some "application/octet-stream" })]
    total := 2, added := 2, pushes := ["a.mp3", "b.mp3"] }

/-- One new candidate file, pushed successfully. -/
def envC5 : SyncEnv :=
  { files := [⟨"new.mp3", 7⟩]
    meta := fun _ => none
    push := fun _ => some "cidN"
    mimeOf := fun _ => none }

/-- A prior catalog with an entry whose file is gone from disk (it is
not among the candidates of `envC5`). -/
def diskC5 : Catalog :=
  [("old.mp3", { relativePath := "old.mp3", cid := some "cidO", size := some 3 })]

/-- The result of running `envC5` over `diskC5`. -/
def rC5 : SyncResult :=
  { state := [("old.mp3", { relativePath := "old.mp3", cid := some "cidO", size := some 3 }),
              ("new.mp3", { relativePath := "new.mp3", cid := some "cidN", size := some 7,
                            mime := some "application/octet-stream" })]
    total := 1, added := 1, pushes := ["new.mp3"] }

/-- One candidate file whose metadata extraction throws but whose push
succeeds. -/
def envC6 : SyncEnv :=
  { files := [⟨"x.mp3", 5⟩]
    meta := fun _ => none
    push := fun _ => some "cidX"
    mimeOf := fun _ => some "audio/mpeg" }

/-- One candidate file, successful run, for the key-binding claim. -/
def envC10 : SyncEnv :=
  { files := [⟨"y.mp3", 4⟩]
    meta := fun _ => none
    push := fun _ => some "cidY"
    mimeOf := fun _ => none }

/-- The result of running `envC10` from an empty catalog. -/
def rC10 : SyncResult :=
  { state := [("y.mp3", { relativePath := "y.mp3", cid := some "cidY", size := some 4,
                          mime := some "application/octet-stream" })]
    total := 1, added := 1, pushes := ["y.mp3"] }

/-- A directory with two regular files and one unreadable subdirectory
between them. -/
def treeC7 : FSTree :=
  FSTree.dir [("a.mp3", FSTree.file), ("sub", FSTree.unreadable), ("b.mp3", FSTree.file)]

/-- A tree whose unreadable directory sits at depth two. -/
def treeC7b : FSTree :=
  FSTree.dir [("ok", FSTree.dir [("x.mp3", FSTree.file)]),
              ("bad", FSTree.dir [("inner", FSTree.unreadable)])]

/-- A catalog whose only entry matches content identifier `"X"` but
records the empty string as its mime type. -/
def catC8 : Catalog :=
  [("a.mp3", { relativePath := "a.mp3", cid := some "X", size := some 1, mime := some "" })]

/-- A catalog for the stream-resolution witness: a non-matching entry
followed by the matching one. -/
def catC8w : Catalog :=
  [("b.mp3", { relativePath := "b.mp3", cid := some "Y", mime := some "audio/ogg" }),
   ("a.mp3", { relativePath := "a.mp3", cid := some "X", mime := some "audio/flac" })]

/-! ## Helper lemmas about catalog access -/

theorem getEntry_setEntry_self (c : Catalog) (k : String) (t : Track) :
    getEntry (setEntry c k t) k = some t := by
  unfold setEntry
  by_cases h : c.any (fun p => p.1 == k) = true
  · simp only [h, if_true]
    induction c with
    | nil => simp at h
    | cons p rest ih =>
      by_cases hp : p.1 == k
      · simp [getEntry, List.find?, hp]
      · simp only [List.any_cons, hp, Bool.false_or] at h
        simpa [getEntry, List.find?, hp] using ih h
  · simp only [h, if_false]
    have hnone : c.find? (fun p => p.1 == k) = none := by
      rw [List.find?_eq_none]
      intro p hp
      by_contra hc
      exact h (List.any_eq_true.mpr ⟨p, hp, by simpa using hc⟩)
    induction c with
    | nil => simp [getEntry, List.find?]
    | cons p rest ih =>
      rw [List.find?_cons] at hnone
      by_cases hp : (p.1 == k) = true
      · simp [hp] at hnone
      · simp only [List.any_cons, hp, Bool.false_or] at h
        simp only [hp, Bool.false_eq_true, if_neg] at hnone
        simpa [getEntry, List.find?, hp] using ih h hnone

theorem getEntry_map_replace (c : Catalog) (k k' : String) (t : Track) (h : k' ≠ k) :
    getEntry (c.map (fun p => if p.1 == k then (k, t) else p)) k' = getEntry c k' := by
  induction c with
  | nil => rfl
  | cons p rest ih =>
    by_cases hp : (p.1 == k) = true
    · have hk : p.1 = k := by simpa using hp
      have hne : (k == k') = false := by
        simpa [beq_eq_false_iff_ne] using fun e => h e.symm
      have hne' : (p.1 == k') = false := by rw [hk]; exact hne
      simp only [getEntry, List.map_cons, if_pos hp, List.find?] at *
      simp only [hne, hne'] at *
      exact ih
    · simp only [getEntry, List.map_cons, if_neg hp, List.find?] at *
      by_cases hq : (p.1 == k') = true
      · simp [hq]
      · simp only [Bool.not_eq_true] at hq
        simp only [hq] at *
        exact ih

theorem getEntry_append_single_ne (c : Catalog) (k k' : String) (t : Track) (h : k' ≠ k) :
    getEntry (c ++ [(k, t)]) k' = getEntry c k' := by
  induction c with
  | nil =>
    have hne : (k == k') = false := by
      simpa [beq_eq_false_iff_ne] using fun e => h e.symm
    simp [getEntry, List.find?, hne]
  | cons p rest ih =>
    by_cases hq : (p.1 == k') = true
    · simp [getEntry, List.find?, hq]
    · simp only [Bool.not_eq_true] at hq
      simp only [getEntry, List.cons_append, List.find?, hq] at *
      exact ih

theorem getEntry_setEntry_ne (c : Catalog) (k k' : String) (t : Track) (h : k' ≠ k) :
    getEntry (setEntry c k t) k' = getEntry c k' := by
  unfold setEntry
  by_cases ha : c.any (fun p => p.1 == k) = true
  · simp only [ha, if_true]
    exact getEntry_map_replace c k k' t h
  · simp only [ha, if_false]
    exact getEntry_append_single_ne c k k' t h

theorem getEntry_setEntry_isSome (c : Catalog) (k k' : String) (t : Track)
    (h : (getEntry c k').isSome = true) :
    (getEntry (setEntry c k t) k').isSome = true := by
  by_cases hk : k' = k
  · subst hk; rw [getEntry_setEntry_self]; rfl
  · rwa [getEntry_setEntry_ne c k k' t hk]

/-! ## Helper lemmas about the worker body and the run loop -/

theorem ingestOne_ok_cases (env : SyncEnv) (acc : RunAcc) (f : FileInfo) (acc' : RunAcc)
    (h : ingestOne env acc f = .ok acc') :
    (needsIngest (getEntry acc.state f.relPath) f.size = false ∧ acc' = acc) ∨
    (∃ cid, env.push f.relPath = some cid ∧
      needsIngest (getEntry acc.state f.relPath) f.size = true ∧
      acc' = { state := setEntry acc.state f.relPath (newEntry env f cid),
               added := acc.added + 1,
               pushes := acc.pushes ++ [f.relPath] }) := by
  unfold ingestOne at h
  by_cases hn : needsIngest (getEntry acc.state f.relPath) f.size = true
  · rw [if_pos hn] at h
    cases hp : env.push f.relPath with
    | none => rw [hp] at h; exact absurd h (by simp)
    | some cid =>
      rw [hp] at h
      right
      exact ⟨cid, rfl, hn, by injection h with h; exact h.symm⟩
  · rw [if_neg hn] at h
    left
    exact ⟨by simpa using hn, by injection h with h; exact h.symm⟩

theorem ingestOne_error_iff (env : SyncEnv) (acc : RunAcc) (f : FileInfo) :
    ingestOne env acc f = .error () ↔
      (needsIngest (getEntry acc.state f.relPath) f.size = true ∧
        env.push f.relPath = none) := by
  unfold ingestOne
  by_cases hn : needsIngest (getEntry acc.state f.relPath) f.size = true
  · rw [if_pos hn]
    cases hp : env.push f.relPath <;> simp [hn]
  · rw [if_neg hn]
    simp [hn]

/-- A successful run only extends the push log, and leaves every key
it never pushed exactly as it found it. -/
theorem runFiles_preserves_unpushed (env : SyncEnv) (l : List FileInfo) (acc r : RunAcc)
    (h : runFiles env acc l = .ok r) :
    (∃ suf, r.pushes = acc.pushes ++ suf) ∧
      ∀ k, k ∉ r.pushes → getEntry r.state k = getEntry acc.state k := by
  induction l generalizing acc with
  | nil =>
    simp only [runFiles] at h
    injection h with h
    subst h
    exact ⟨⟨[], by simp⟩, fun k _ => rfl⟩
  | cons f rest ih =>
    simp only [runFiles] at h
    cases hi : ingestOne env acc f with
    | error e => rw [hi] at h; exact absurd h (by simp)
    | ok acc' =>
      rw [hi] at h
      obtain ⟨⟨suf, hsuf⟩, hpres⟩ := ih acc' h
      rcases ingestOne_ok_cases env acc f acc' hi with ⟨_, rfl⟩ | ⟨cid, _, _, rfl⟩
      · exact ⟨⟨suf, hsuf⟩, hpres⟩
      · refine ⟨⟨f.relPath :: suf, by simpa using hsuf⟩, fun k hk => ?_⟩
        have hmem : f.relPath ∈ r.pushes := by
          rw [hsuf]; simp
        have hne : k ≠ f.relPath := fun e => hk (e ▸ hmem)
        rw [hpres k hk]
        exact getEntry_setEntry_ne _ _ _ _ hne

/-- A successful run never loses a key: any key present in the
in-memory catalog stays present. -/
theorem runFiles_preserves_isSome (env : SyncEnv) (l : List FileInfo) (acc r : RunAcc)
    (h : runFiles env acc l = .ok r) (k : String)
    (hs : (getEntry acc.state k).isSome = true) :
    (getEntry r.state k).isSome = true := by
  induction l generalizing acc with
  | nil =>
    simp only [runFiles] at h
    injection h with h
    subst h
    exact hs
  | cons f rest ih =>
    simp only [runFiles] at h
    cases hi : ingestOne env acc f with
    | error e => rw [hi] at h; exact absurd h (by simp)
    | ok acc' =>
      rw [hi] at h
      rcases ingestOne_ok_cases env acc f acc' hi with ⟨_, rfl⟩ | ⟨cid, _, _, rfl⟩
      · exact ih acc' h hs
      · exact ih _ h (getEntry_setEntry_isSome _ _ _ _ hs)

/-- A successful run leaves every key outside the relative paths of the
processed files untouched. -/
theorem runFiles_preserves_other_paths (env : SyncEnv) (l : List FileInfo) (acc r : RunAcc)
    (h : runFiles env acc l = .ok r) (k : String)
    (hk : k ∉ l.map (fun f => f.relPath)) :
    getEntry r.state k = getEntry acc.state k := by
  induction l generalizing acc with
  | nil =>
    simp only [runFiles] at h
    injection h with h
    subst h
    rfl
  | cons f rest ih =>
    simp only [List.map_cons, List.mem_cons, not_or] at hk
    simp only [runFiles] at h
    cases hi : ingestOne env acc f with
    | error e => rw [hi] at h; exact absurd h (by simp)
    | ok acc' =>
      rw [hi] at h
      rcases ingestOne_ok_cases env acc f acc' hi with ⟨_, rfl⟩ | ⟨cid, _, _, rfl⟩
      · exact ih acc' h hk.2
      · rw [ih _ h hk.2]
        exact getEntry_setEntry_ne _ _ _ _ hk.1

/-- Unfolding of the skip condition: `needsIngest` is `false` exactly
when a previous entry exists whose recorded size matches and whose
`cid` is truthy. -/
theorem needsIngest_false_char (prev : Option Track) (cur : Nat) :
    needsIngest prev cur = false ↔
      ∃ t, prev = some t ∧ t.size = some cur ∧ strTruthy t.cid = true := by
  cases prev with
  | none => simp [needsIngest]
  | some t => simp [needsIngest, and_comm]

/-- If any file of the list needs ingestion (judged against the
snapshot `disk`) and its push fails, the loop rejects — per-file
isolation is absent. Requires the candidate paths to be distinct
(which `walk` guarantees: distinct files have distinct paths) and the
accumulator to still agree with the snapshot on the listed paths. -/
theorem runFiles_error_of_failing (env : SyncEnv) (disk : Catalog) (l : List FileInfo)
    (acc : RunAcc)
    (hnd : (l.map (fun f => f.relPath)).Nodup)
    (hagree : ∀ f ∈ l, getEntry acc.state f.relPath = getEntry disk f.relPath)
    (hex : ∃ f ∈ l, needsIngest (getEntry disk f.relPath) f.size = true ∧
      env.push f.relPath = none) :
    runFiles env acc l = .error () := by
  induction l generalizing acc with
  | nil => simp at hex
  | cons f rest ih =>
    simp only [runFiles]
    cases hi : ingestOne env acc f with
    | error e => cases e; rfl
    | ok acc' =>
      obtain ⟨g, hg, hgneeds, hgpush⟩ := hex
      simp only [List.map_cons, List.nodup_cons] at hnd
      rcases List.mem_cons.mp hg with rfl | hgrest
      · exfalso
        have herr : ingestOne env acc g = .error () := by
          rw [ingestOne_error_iff]
          exact ⟨by rw [hagree g (by simp)]; exact hgneeds, hgpush⟩
        rw [hi] at herr
        exact absurd herr (by simp)
      · have hagree' : ∀ f' ∈ rest, getEntry acc'.state f'.relPath = getEntry disk f'.relPath := by
          intro f' hf'
          have hbase := hagree f' (List.mem_cons_of_mem _ hf')
          rcases ingestOne_ok_cases env acc f acc' hi with ⟨_, rfl⟩ | ⟨cid, _, _, rfl⟩
          · exact hbase
          · have hne : f'.relPath ≠ f.relPath := by
              intro e
              exact hnd.1 (e ▸ List.mem_map_of_mem (fun x => x.relPath) hf')
            simpa [getEntry_setEntry_ne _ _ _ _ hne] using hbase
        exact ih acc' hnd.2 hagree' ⟨g, hgrest, hgneeds, hgpush⟩

/-- After a successful loop over distinct paths, provided the store
never returns an empty content identifier, every processed file's key
holds an entry with the file's current size and a truthy `cid`. -/
theorem runFiles_good (env : SyncEnv) (l : List FileInfo) (acc r : RunAcc)
    (h : runFiles env acc l = .ok r)
    (hnd : (l.map (fun f => f.relPath)).Nodup)
    (hcid : ∀ p c, env.push p = some c → c ≠ "") :
    ∀ f ∈ l, ∃ t, getEntry r.state f.relPath = some t ∧
      t.size = some f.size ∧ strTruthy t.cid = true := by
  induction l generalizing acc with
  | nil => simp
  | cons f rest ih =>
    simp only [List.map_cons, List.nodup_cons] at hnd
    simp only [runFiles] at h
    cases hi : ingestOne env acc f with
    | error e => rw [hi] at h; exact absurd h (by simp)
    | ok acc' =>
      rw [hi] at h
      intro g hg
      rcases List.mem_cons.mp hg with rfl | hgrest
      · have hgood : ∃ t, getEntry acc'.state g.relPath = some t ∧
            t.size = some g.size ∧ strTruthy t.cid = true := by
          rcases ingestOne_ok_cases env acc g acc' hi with ⟨hskip, rfl⟩ | ⟨cid, hpush, _, rfl⟩
          · exact (needsIngest_false_char _ _).mp hskip
          · refine ⟨newEntry env g cid, ?_, rfl, ?_⟩
            · exact getEntry_setEntry_self _ _ _
            · have : cid ≠ "" := hcid _ _ hpush
              simpa [newEntry, strTruthy] using this
        obtain ⟨t, ht, hts, htc⟩ := hgood
        refine ⟨t, ?_, hts, htc⟩
        rw [runFiles_preserves_other_paths env rest acc' r h g.relPath hnd.1]
        exact ht
      · exact ih acc' h hnd.2 g hgrest

/-- When every listed file's skip condition already holds, the loop is
a no-op: no pushes, no writes, no increments. -/
theorem runFiles_all_skip (env : SyncEnv) (l : List FileInfo) (acc : RunAcc)
    (h : ∀ f ∈ l, needsIngest (getEntry acc.state f.relPath) f.size = false) :
    runFiles env acc l = .ok acc := by
  induction l with
  | nil => rfl
  | cons f rest ih =>
    simp only [runFiles]
    have hskip : ingestOne env acc f = .ok acc := by
      unfold ingestOne
      rw [if_neg (by simp [h f (by simp)])]
    rw [hskip]
    exact ih fun f' hf' => h f' (List.mem_cons_of_mem _ hf')

/-- Every entry a successful loop wrote is stored under its own
`relativePath`; entries it did not write come from the accumulator. -/
theorem runFiles_keyBinding (env : SyncEnv) (l : List FileInfo) (acc r : RunAcc)
    (h : runFiles env acc l = .ok r) :
    ∀ k t, getEntry r.state k = some t →
      getEntry acc.state k = some t ∨ t.relativePath = k := by
  induction l generalizing acc with
  | nil =>
    simp only [runFiles] at h
    injection h with h
    subst h
    exact fun k t ht => Or.inl ht
  | cons f rest ih =>
    simp only [runFiles] at h
    cases hi : ingestOne env acc f with
    | error e => rw [hi] at h; exact absurd h (by simp)
    | ok acc' =>
      rw [hi] at h
      intro k t ht
      rcases ih acc' h k t ht with hacc' | hrel
      · rcases ingestOne_ok_cases env acc f acc' hi with ⟨_, rfl⟩ | ⟨cid, _, _, rfl⟩
        · exact Or.inl hacc'
        · by_cases hk : k = f.relPath
          · subst hk
            rw [getEntry_setEntry_self] at hacc'
            injection hacc' with hacc'
            subst hacc'
            exact Or.inr rfl
          · rw [getEntry_setEntry_ne _ _ _ _ hk] at hacc'
            exact Or.inl hacc'
      · exact Or.inr hrel

/-- JavaScript truthiness of an optional string, unfolded. -/
theorem strTruthy_iff (o : Option String) :
    strTruthy o = true ↔ ∃ s, o = some s ∧ s ≠ "" := by
  cases o with
  | none => simp [strTruthy]
  | some s => simp [strTruthy]

/-- `find?` skips a prefix none of whose entries carry the requested
content identifier. -/
theorem find?_cid_append (pre rest : Catalog) (cid : String)
    (h : ∀ p ∈ pre, p.2.cid ≠ some cid) :
    (pre ++ rest).find? (fun p => p.2.cid == some cid) =
      rest.find? (fun p => p.2.cid == some cid) := by
  induction pre with
  | nil => rfl
  | cons q pre' ih =>
    have hq : (q.2.cid == some cid) = false := by
      simpa [beq_eq_false_iff_ne] using h q (by simp)
    simp only [List.cons_append, List.find?, hq]
    exact ih fun p hp => h p (by simp [hp])

mutual

/-- An unreadable directory anywhere in the tree makes `walk` reject:
the `readdirSync` throw is uncaught at every level. -/
theorem walk_error_of_unreadable (p : String) (t : FSTree)
    (h : hasUnreadable t = true) : walk p t = Except.error () := by
  cases t with
  | file => simp [hasUnreadable] at h
  | unreadable => rfl
  | dir es =>
    exact walkEntries_error_of_unreadable p es (by simpa [hasUnreadable] using h)

/-- Entry-list version of `walk_error_of_unreadable`. -/
theorem walkEntries_error_of_unreadable (p : String) (es : List (String × FSTree))
    (h : hasUnreadableEntries es = true) : walkEntries p es = Except.error () := by
  cases es with
  | nil => simp [hasUnreadableEntries] at h
  | cons e rest =>
    obtain ⟨n, t⟩ := e
    rw [hasUnreadableEntries, Bool.or_eq_true] at h
    by_cases hd : isDirEntry t = true
    · rw [walkEntries, if_pos hd]
      rcases h with h | h
      · rw [walk_error_of_unreadable (p ++ "/" ++ n) t h]
        rfl
      · cases hw : walk (p ++ "/" ++ n) t with
        | error e => cases e; rfl
        | ok sub =>
          rw [walkEntries_error_of_unreadable p rest h]
          rfl
    · have ht : t = FSTree.file := by
        cases t
        · rfl
        · simp [isDirEntry] at hd
        · simp [isDirEntry] at hd
      subst ht
      rcases h with h | h
      · simp [hasUnreadable] at h
      · rw [walkEntries, if_neg hd, walkEntries_error_of_unreadable p rest h]
        rfl

end

/-! ## The claims -/

/-- C1 (counterexample to the claim as stated): with the three
candidates of `envC1` — exactly one failing store push — over the
prior catalog `diskC1`, the run does not complete with
`total = 3, added = 2`: the one worker's rejection propagates through
`Promise.all`, the route reports failure (`none`) instead of a result,
and no catalog holding the two successes is persisted — the durable
catalog is the untouched prior one (in particular the successfully
pushed `a.mp3` is absent from it). -/
theorem scanAndIndex_isolation_cex :
    runIndexRoute envC1 diskC1 = (diskC1, none) ∧
    (runIndexRoute envC1 diskC1).2 ≠ some (3, 2) ∧
    getEntry (runIndexRoute envC1 diskC1).1 "a.mp3" = none := by
  exact ⟨rfl, by decide, rfl⟩

/-- C1 (amended): partial-failure isolation is absent. Whenever some
candidate file needs ingestion (judged against the loaded snapshot) and
its store push fails, the whole `scanAndIndex` call rejects: the route
returns no `{total, added}` result and `saveState` is never reached,
so the durable catalog stays exactly the prior one — the failed file's
previous entry is unchanged, but the run's successful ingestions are
lost rather than persisted. Candidate paths are distinct, as `walk`
produces them. -/
theorem scanAndIndex_abortsOnPushFailure (env : SyncEnv) (disk : Catalog)
    (hnd : (env.files.map (fun f => f.relPath)).Nodup)
    (hex : ∃ f ∈ env.files, needsIngest (getEntry disk f.relPath) f.size = true ∧
      env.push f.relPath = none) :
    runIndexRoute env disk = (disk, none) := by
  have herr : runFiles env { state := disk, added := 0, pushes := [] } env.files =
      .error () :=
    runFiles_error_of_failing env disk env.files _ hnd (fun f _ => rfl) hex
  unfold runIndexRoute scanAndIndex
  rw [herr]

/-- C1 witness: the amended theorem at the concrete partial-failure
run. -/
theorem scanAndIndex_abortsOnPushFailure_witness :
    runIndexRoute envC1 diskC1 = (diskC1, none) :=
  scanAndIndex_abortsOnPushFailure envC1 diskC1 (by decide)
    ⟨⟨"b.mp3", 2⟩, by decide, by decide, by decide⟩

/-- C2 (counterexample to the claim as stated): `saveState` writes the
state file in place with `fs.writeFileSync` — no temporary file, no
rename — so the truncated file is an observable mid-save crash
outcome, and `loadState` then returns the empty catalog: neither the
fully-prior nor the fully-new state for this concrete nonempty prior
and new catalog. -/
theorem saveState_atomicity_cex :
    Stored.truncated ∈ saveOutcomes (Stored.valid [("a.mp3", trackA)])
        [("a.mp3", trackA), ("b.mp3", trackB)] ∧
    loadState Stored.truncated ≠ loadState (Stored.valid [("a.mp3", trackA)]) ∧
    loadState Stored.truncated ≠ [("a.mp3", trackA), ("b.mp3", trackB)] := by
  refine ⟨by simp [saveOutcomes], by decide, by decide⟩

/-- C2 (amended): `saveState` is not an atomic replace: a crash
mid-save can leave a truncated state file, and a subsequent `loadState`
then returns the empty catalog (corruption is treated as no prior
state) — whenever the prior catalog was nonempty and the new one is
nonempty, the observed post-crash state is neither of the two. -/
theorem saveState_crash_leaves_truncated (prior : Stored) (c : Catalog)
    (hprior : loadState prior ≠ []) (hc : c ≠ []) :
    Stored.truncated ∈ saveOutcomes prior c ∧
    loadState Stored.truncated ≠ loadState prior ∧
    loadState Stored.truncated ≠ c := by
  refine ⟨by simp [saveOutcomes], ?_, ?_⟩
  · exact fun h => hprior h.symm
  · exact fun h => hc h.symm

/-- C2 witness: the amended theorem at a concrete nonempty prior and
new catalog. -/
theorem saveState_crash_leaves_truncated_witness :
    Stored.truncated ∈ saveOutcomes (Stored.valid [("a.mp3", trackA)]) [("b.mp3", trackB)] ∧
    loadState Stored.truncated ≠ loadState (Stored.valid [("a.mp3", trackA)]) ∧
    loadState Stored.truncated ≠ [("b.mp3", trackB)] :=
  saveState_crash_leaves_truncated (Stored.valid [("a.mp3", trackA)]) [("b.mp3", trackB)]
    (by decide) (by decide)

/-- C3: idempotency. After a fully successful run over candidates with
distinct paths, provided the store never hands back an empty content
identifier, a second run over the unchanged file set and the persisted
catalog succeeds with `added = 0`, issues no store pushes, and leaves
the catalog as it was; indeed, every file's skip condition holds. -/
theorem scanAndIndex_idempotent (env : SyncEnv) (disk0 : Catalog) (r1 : SyncResult)
    (hnd : (env.files.map (fun f => f.relPath)).Nodup)
    (hcid : ∀ p c, env.push p = some c → c ≠ "")
    (h1 : scanAndIndex env disk0 = .ok r1) :
    (scanAndIndex env r1.state =
      .ok { state := r1.state, total := env.files.length, added := 0, pushes := [] }) ∧
    ∀ f ∈ env.files, needsIngest (getEntry r1.state f.relPath) f.size = false := by
  unfold scanAndIndex at h1
  cases hr : runFiles env { state := disk0, added := 0, pushes := [] } env.files with
  | error e => rw [hr] at h1; exact absurd h1 (by simp)
  | ok acc =>
    rw [hr] at h1
    injection h1 with h1
    subst h1
    have hgood := runFiles_good env env.files _ acc hr hnd hcid
    have hskip : ∀ f ∈ env.files,
        needsIngest (getEntry acc.state f.relPath) f.size = false := by
      intro f hf
      obtain ⟨t, ht, hts, htc⟩ := hgood f hf
      exact (needsIngest_false_char _ _).mpr ⟨t, ht, hts, htc⟩
    refine ⟨?_, hskip⟩
    unfold scanAndIndex
    rw [runFiles_all_skip env env.files { state := acc.state, added := 0, pushes := [] }
      (fun f hf => hskip f hf)]

/-- C3 witness: the second run of the concrete two-file environment
after its successful first run. -/
theorem scanAndIndex_idempotent_witness :
    scanAndIndex envC3 rC3.state =
      .ok { state := rC3.state, total := envC3.files.length, added := 0, pushes := [] } :=
  (scanAndIndex_idempotent envC3 [] rC3 (by decide)
    (fun p c h => by
      have h' := Option.some.inj h
      subst h'
      decide) rfl).1

/-- C4: the needs-ingest decision is false (skip) exactly when a
previous entry exists, its content identifier is present and
non-empty, and its recorded size equals the current size; in every
other combination (no previous entry, missing or empty `cid`, size
mismatch) it is true. -/
theorem needsIngest_spec (prev : Option Track) (currentSize : Nat) :
    needsIngest prev currentSize = false ↔
      ∃ t s, prev = some t ∧ t.cid = some s ∧ s ≠ "" ∧ t.size = some currentSize := by
  rw [needsIngest_false_char]
  constructor
  · rintro ⟨t, rfl, hts, htc⟩
    obtain ⟨s, hs, hne⟩ := (strTruthy_iff t.cid).mp htc
    exact ⟨t, s, rfl, hs, hne, hts⟩
  · rintro ⟨t, s, rfl, hs, hne, hts⟩
    exact ⟨t, rfl, hts, (strTruthy_iff t.cid).mpr ⟨s, hs, hne⟩⟩

/-- C5: no-deletion/superset. For a run that reaches persistence, the
persisted catalog agrees with the snapshot on every key the run did not
push (entries are only added or overwritten with fresh ingestion
results, never removed), and every key present in the snapshot is still
present — so removing a file from disk never removes its entry. -/
theorem scanAndIndex_superset (env : SyncEnv) (disk : Catalog) (r : SyncResult)
    (h : scanAndIndex env disk = .ok r) :
    (∀ k, k ∉ r.pushes → getEntry r.state k = getEntry disk k) ∧
    (∀ k, (getEntry disk k).isSome = true → (getEntry r.state k).isSome = true) := by
  unfold scanAndIndex at h
  cases hr : runFiles env { state := disk, added := 0, pushes := [] } env.files with
  | error e => rw [hr] at h; exact absurd h (by simp)
  | ok acc =>
    rw [hr] at h
    injection h with h
    subst h
    constructor
    · intro k hk
      obtain ⟨⟨suf, hsuf⟩, hpres⟩ := runFiles_preserves_unpushed env env.files _ acc hr
      exact hpres k hk
    · intro k hs
      exact runFiles_preserves_isSome env env.files _ acc hr k hs

/-- C5 witness: the entry of the file gone from disk (`old.mp3`, not a
candidate of the run) survives the concrete run unchanged. -/
theorem scanAndIndex_superset_witness :
    getEntry rC5.state "old.mp3" = getEntry diskC5 "old.mp3" :=
  (scanAndIndex_superset envC5 diskC5 rC5 rfl).1 "old.mp3" (by decide)

/-- C6: metadata best-effort. A file whose metadata extraction throws
is still ingested: the worker succeeds, stores its entry under the
file's path with the new content identifier, the statted size and an
always-present mime type (extension lookup or the octet-stream
default), and title, artist, album and duration are absent. -/
theorem ingestOne_metadata_bestEffort (env : SyncEnv) (acc : RunAcc) (f : FileInfo)
    (cid : String)
    (hmeta : env.meta f.relPath = none)
    (hneed : needsIngest (getEntry acc.state f.relPath) f.size = true)
    (hpush : env.push f.relPath = some cid) :
    (ingestOne env acc f =
      .ok { state := setEntry acc.state f.relPath (newEntry env f cid)
            added := acc.added + 1
            pushes := acc.pushes ++ [f.relPath] }) ∧
    (newEntry env f cid).cid = some cid ∧
    (newEntry env f cid).size = some f.size ∧
    (newEntry env f cid).mime =
      some (jsOrDefault (env.mimeOf f.relPath) "application/octet-stream") ∧
    (newEntry env f cid).title = none ∧
    (newEntry env f cid).artist = none ∧
    (newEntry env f cid).album = none ∧
    (newEntry env f cid).duration = none := by
  refine ⟨?_, rfl, rfl, rfl, ?_, ?_, ?_, ?_⟩
  · unfold ingestOne
    rw [if_pos hneed, hpush]
  · simp [newEntry, hmeta]
  · simp [newEntry, hmeta]
  · simp [newEntry, hmeta]
  · simp [newEntry, hmeta]

/-- C6 witness: the concrete file whose metadata extraction throws is
ingested nonetheless. -/
theorem ingestOne_metadata_bestEffort_witness :
    ingestOne envC6 { state := [], added := 0, pushes := [] } ⟨"x.mp3", 5⟩ =
      .ok { state := setEntry [] "x.mp3" (newEntry envC6 ⟨"x.mp3", 5⟩ "cidX"),
            added := 1, pushes := ["x.mp3"] } :=
  (ingestOne_metadata_bestEffort envC6 { state := [], added := 0, pushes := [] }
    ⟨"x.mp3", 5⟩ "cidX" rfl (by decide) rfl).1

/-- C7 (counterexample to the claim as stated): the unreadable
subdirectory of `treeC7` aborts the whole walk — `walk` has no error
handling — so the sibling regular files `a.mp3` and `b.mp3` are not
enumerated; no list is produced at all. -/
theorem walk_abort_cex :
    walk "/music" treeC7 = Except.error () ∧
    ∀ out, walk "/music" treeC7 ≠ Except.ok out := by
  refine ⟨rfl, fun out h => ?_⟩
  rw [show walk "/music" treeC7 = Except.error () from rfl] at h
  exact Except.noConfusion h

/-- C7 (amended): error tolerance is absent: if reading any directory
at any depth of the tree fails, the whole walk aborts with that error
and enumerates nothing — the failing entry is not skipped. -/
theorem walk_abortsOnUnreadable (p : String) (t : FSTree)
    (h : hasUnreadable t = true) : walk p t = Except.error () :=
  walk_error_of_unreadable p t h

/-- C7 witness: the amended theorem on a tree whose unreadable
directory sits at depth two. -/
theorem walk_abortsOnUnreadable_witness :
    walk "/music" treeC7b = Except.error () :=
  walk_abortsOnUnreadable "/music" treeC7b rfl

/-- C8 (counterexample to the claim as stated): the first matching
entry of `catC8` records the mime type `""`, but the route serves the
fallback `"audio/mpeg"`, not the matching entry's recorded mime type —
the fallback is not reserved to the no-match case. -/
theorem streamMime_cex :
    (catC8.find? (fun p => p.2.cid == some "X") =
      some ("a.mp3", { relativePath := "a.mp3", cid := some "X", size := some 1,
                       mime := some "" })) ∧
    streamMime catC8 "X" = "audio/mpeg" ∧ ("audio/mpeg" : String) ≠ "" := by
  refine ⟨rfl, rfl, by decide⟩

/-- C8 (amended): the mime type served for a requested content
identifier is that of the first catalog entry in enumeration order
whose `cid` equals it, provided that entry records a non-empty mime
type (uniqueness is not enforced — an ambiguous `cid` resolves to the
first match); when no entry matches, or the first match records an
absent or empty mime type, the default `audio/mpeg` is served. -/
theorem streamMime_resolution :
    (∀ (pre post : Catalog) (k : String) (t : Track) (cid m : String),
      (∀ p ∈ pre, p.2.cid ≠ some cid) → t.cid = some cid → t.mime = some m → m ≠ "" →
      streamMime (pre ++ (k, t) :: post) cid = m) ∧
    (∀ (st : Catalog) (cid : String), (∀ p ∈ st, p.2.cid ≠ some cid) →
      streamMime st cid = "audio/mpeg") ∧
    (∀ (pre post : Catalog) (k : String) (t : Track) (cid : String),
      (∀ p ∈ pre, p.2.cid ≠ some cid) → t.cid = some cid →
      (t.mime = none ∨ t.mime = some "") →
      streamMime (pre ++ (k, t) :: post) cid = "audio/mpeg") := by
  refine ⟨?_, ?_, ?_⟩
  · intro pre post k t cid m hpre ht hm hm'
    unfold streamMime
    rw [find?_cid_append pre _ cid hpre]
    have hhit : (t.cid == some cid) = true := by simp [ht]
    simp [List.find?, hhit, jsOrDefault, hm, hm']
  · intro st cid h
    unfold streamMime
    have hmiss : st.find? (fun p => p.2.cid == some cid) = none := by
      rw [List.find?_eq_none]
      intro p hp
      simpa [beq_eq_false_iff_ne] using h p hp
    simp [hmiss, jsOrDefault]
  · intro pre post k t cid hpre ht hm
    unfold streamMime
    rw [find?_cid_append pre _ cid hpre]
    have hhit : (t.cid == some cid) = true := by simp [ht]
    rcases hm with hm | hm <;> simp [List.find?, hhit, jsOrDefault, hm]

/-- C8 witness: resolution at a catalog whose second entry is the
first (and only) match, with a non-empty recorded mime type. -/
theorem streamMime_resolution_witness :
    streamMime catC8w "X" = "audio/flac" :=
  streamMime_resolution.1
    [("b.mp3", { relativePath := "b.mp3", cid := some "Y", mime := some "audio/ogg" })] []
    "a.mp3" { relativePath := "a.mp3", cid := some "X", mime := some "audio/flac" }
    "X" "audio/flac" (by decide) rfl rfl (by decide)

/-- C10: key binding. Every entry of the catalog a successful run
hands to `saveState` either was already in the loaded snapshot under
the same key with the same contents, or was written by this run and
then its `relativePath` field equals its key — the run never writes an
entry under a key different from its `relativePath`. -/
theorem scanAndIndex_keyBinding (env : SyncEnv) (disk : Catalog) (r : SyncResult)
    (h : scanAndIndex env disk = .ok r) :
    ∀ k t, getEntry r.state k = some t →
      getEntry disk k = some t ∨ t.relativePath = k := by
  unfold scanAndIndex at h
  cases hr : runFiles env { state := disk, added := 0, pushes := [] } env.files with
  | error e => rw [hr] at h; exact absurd h (by simp)
  | ok acc =>
    rw [hr] at h
    injection h with h
    subst h
    exact fun k t ht => runFiles_keyBinding env env.files _ acc hr k t ht

/-- C10 witness: the concrete run stores the entry for `y.mp3` under
its own relative path. -/
theorem scanAndIndex_keyBinding_witness :
    getEntry ([] : Catalog) "y.mp3" =
        some { relativePath := "y.mp3", cid := some "cidY", size := some 4,
               mime := some "application/octet-stream" } ∨
      Track.relativePath
        { relativePath := "y.mp3", cid := some "cidY", size := some 4,
          mime := some "application/octet-stream" } = "y.mp3" :=
  scanAndIndex_keyBinding envC10 [] rC10 rfl "y.mp3"
    { relativePath := "y.mp3", cid := some "cidY", size := some 4,
      mime := some "application/octet-stream" } rfl

end P2PMusic
